import Mathlib

set_option autoImplicit false

namespace QAService

/-- A chat message as deserialized from the external API
(the `Message` pydantic model in `main.py`). -/
structure Message where
  id : String
  user_id : String
  user_name : String
  timestamp : String
  message : String
  deriving DecidableEq, Repr

/-- One possible response of the external messages endpoint to a single
HTTP request, as seen by the body of the inner retry loop in
`fetch_all_messages`: a parsed JSON body with `items` and `total`, a
transient `httpx.HTTPError`, or any other exception (malformed payload,
a bad item failing `Message` validation, ...). -/
inductive PageResp where
  | ok (items : List Message) (total : Nat)
  | httpErr (e : String)
  | unexpected (e : String)
  deriving DecidableEq, Repr

/-- A page oracle: the response the remote API gives to the request at
cursor `skip`, on retry attempt `att` (0-based) for that cursor. -/
def PageOracle := Nat → Nat → PageResp

/-- Outcome of the inner retry loop of `fetch_all_messages` for one page:
a successful response with an empty `items` list (the whole fetch returns),
a successful response with items, or an exhausted retry budget. -/
inductive PageOutcome where
  | gotEmpty
  | gotItems (items : List Message) (total : Nat)
  | failed
  deriving DecidableEq, Repr

/-- The inner `while retry_count < max_retries and not success` loop of
`fetch_all_messages` for the page at cursor `skip`: `fuel` is the number of
attempts left (`max_retries - retry_count`), `att` the index of the next
attempt.  A transient `httpx.HTTPError` consumes one attempt; any other
exception sets `retry_count = max_retries`, aborting the page at once.
Both exits through the exception handlers add exactly one to
`consecutive_failures`, which `PageOutcome.failed` records. -/
def tryPage (oracle : PageOracle) (skip : Nat) : Nat → Nat → PageOutcome
  | 0, _ => .failed
  | fuel + 1, att =>
    match oracle skip att with
    | .ok items total => if items.isEmpty then .gotEmpty else .gotItems items total
    | .httpErr _ => tryPage oracle skip fuel (att + 1)
    | .unexpected _ => .failed

/-- The inner loop entered with the full retry budget
(`max_retries = 3`, `retry_count = 0`). -/
def tryPage3 (oracle : PageOracle) (skip : Nat) : PageOutcome :=
  tryPage oracle skip 3 0

/-- The outer `while True` pagination loop of `fetch_all_messages`.
`fuel` bounds the number of outer iterations (the Python loop has no such
bound, so `none` marks fuel exhaustion — the non-termination proxy),
`skip` is the cursor, `acc` the `all_messages` accumulator and `cf` the
`consecutive_failures` counter.  The constants are those of the source:
`limit = 100`, `max_consecutive_failures = 5`.  On a successful page the
counter resets to 0; on a failed page the counter grows by one, the
cursor still advances, and the loop breaks once the counter reaches 5. -/
def fetchGo (oracle : PageOracle) : Nat → Nat → List Message → Nat → Option (List Message)
  | 0, _, _, _ => none
  | fuel + 1, skip, acc, cf =>
    match tryPage3 oracle skip with
    | .gotEmpty => some acc
    | .gotItems items total =>
      let acc2 := acc ++ items
      if acc2.length ≥ total then some acc2
      else fetchGo oracle fuel (skip + 100) acc2 0
    | .failed =>
      if cf + 1 ≥ 5 then some acc
      else fetchGo oracle fuel (skip + 100) acc (cf + 1)

/-- The function `fetch_all_messages` from `main.py`, over a page oracle: the outer loop
started at cursor 0 with an empty accumulator and a zero failure counter. -/
def fetch_all_messages (oracle : PageOracle) (fuel : Nat) : Option (List Message) :=
  fetchGo oracle fuel 0 [] 0

/-- The per-message line built by `format_messages_for_context`
(an f-string interpolating `user_name`, `user_id`, `timestamp`, `message`). -/
def formatMsg (m : Message) : String :=
  "User: " ++ m.user_name ++ " (ID: " ++ m.user_id ++ ", Time: " ++
    m.timestamp ++ "): " ++ m.message ++ "\n"

/-- The `context_parts` list accumulated by `format_messages_for_context`:
`cnt` is the running `char_count`; the loop breaks at the first line that
would push the count past `maxChars`. -/
def fmcParts (maxChars : Nat) : List Message → Nat → List String
  | [], _ => []
  | m :: rest, cnt =>
    let f := formatMsg m
    if cnt + f.length > maxChars then []
    else f :: fmcParts maxChars rest (cnt + f.length)

/-- The function `format_messages_for_context` from `main.py`: the joined parts list
(Python `"".join(context_parts)`). -/
def format_messages_for_context (messages : List Message) (maxChars : Nat) : String :=
  String.join (fmcParts maxChars messages 0)

/-- Python `str.lower()` on the character list of a string (the source data
is ASCII, where `Char.toLower` agrees with Python). -/
def lowerL (cs : List Char) : List Char :=
  cs.map Char.toLower

/-- Python's substring test `pat in hay`, on character lists: some suffix of
`hay` starts with `pat`.  The empty pattern is in every string. -/
def hasSubL : List Char → List Char → Bool
  | [], pat => pat.isEmpty
  | c :: rest, pat => pat.isPrefixOf (c :: rest) || hasSubL rest pat

/-- Python's substring test `pat in hay` on strings. -/
def strContains (hay pat : String) : Bool :=
  hasSubL hay.data pat.data

/-- Python's `s.startswith(p)`, used only to state properties of the fixed
answer strings. -/
def strStartsWith (s p : String) : Bool :=
  p.data.isPrefixOf s.data

/-- Python `str.split()` with no argument: split on whitespace runs,
discarding empty tokens.  `acc` holds the current token reversed. -/
def splitWsAux : List Char → List Char → List (List Char)
  | [], acc => if acc.isEmpty then [] else [acc.reverse]
  | c :: rest, acc =>
    if c.isWhitespace then
      if acc.isEmpty then splitWsAux rest [] else acc.reverse :: splitWsAux rest []
    else splitWsAux rest (c :: acc)

/-- Python `question_lower.split()`. -/
def splitWs (cs : List Char) : List (List Char) :=
  splitWsAux cs []

/-- Python `str.strip()`: drop leading and trailing whitespace. -/
def stripStr (s : String) : String :=
  ⟨((s.data.dropWhile Char.isWhitespace).reverse.dropWhile Char.isWhitespace).reverse⟩

/-- Insertion step of a stable descending sort on `(match_count, message)`
pairs: `x` passes over entries with a strictly greater count and lands in
front of the first entry whose count is not greater, so entries with equal
counts keep their relative order.  This is the behavior of Python's stable
`list.sort(reverse=True, key=lambda x: x[0])` in `answer_question_simple`. -/
def insertDesc (x : Nat × Message) : List (Nat × Message) → List (Nat × Message)
  | [] => [x]
  | y :: rest => if y.1 > x.1 then y :: insertDesc x rest else x :: y :: rest

/-- Stable descending sort by match count
(Python `keyword_matches.sort(reverse=True, key=lambda x: x[0])`). -/
def sortDesc : List (Nat × Message) → List (Nat × Message)
  | [] => []
  | x :: rest => insertDesc x (sortDesc rest)

/-- The fixed no-match answer of `answer_question_simple`. -/
def notFoundMsg : String :=
  "I couldn't find relevant information in the messages to answer this question."

/-- The answer template of `answer_question_simple` citing the top match. -/
def citeMsg (m : Message) : String :=
  "Based on the messages, I found that " ++ m.user_name ++ " mentioned: '" ++
    m.message ++ "' (on " ++ m.timestamp ++ ")"

/-- The `keyword_matches` list of `answer_question_simple`: for each of the
first 50 candidate messages, the number of question keywords of length > 3
occurring (case-insensitively) in the message body, keeping only messages
with at least one match. -/
def keywordMatches (keywords : List (List Char)) (relevant : List Message) :
    List (Nat × Message) :=
  (relevant.take 50).filterMap fun m =>
    let msg_lower := lowerL m.message.data
    let mcount := (keywords.filter fun kw => hasSubL msg_lower kw && kw.length > 3).length
    if mcount > 0 then some (mcount, m) else none

/-- The function `answer_question_simple` from `main.py`: the rule-based keyword-search
fallback.  Detect author names mentioned in the question, restrict the pool
to their messages when any are found, score the first 50 candidates by
keyword overlap, stable-sort descending and cite the top match. -/
def answer_question_simple (question : String) (messages : List Message) : String :=
  let question_lower := lowerL question.data
  let mentioned_users :=
    (messages.filter fun m => hasSubL question_lower (lowerL m.user_name.data)).map
      fun m => m.user_name
  let relevant_messages :=
    if mentioned_users.isEmpty then messages
    else messages.filter fun m => mentioned_users.contains m.user_name
  let keywords := splitWs question_lower
  let keyword_matches := keywordMatches keywords relevant_messages
  match sortDesc keyword_matches with
  | (_, top) :: _ => citeMsg top
  | [] => notFoundMsg

/-- Which of the three API keys are present in the environment
(`GROQ_API_KEY`, `ANTHROPIC_API_KEY`, `OPENAI_API_KEY`). -/
structure Keys where
  groq : Bool
  anthropic : Bool
  openai : Bool
  deriving DecidableEq, Repr

/-- The module-level client singletons of `main.py`: for each provider,
whether its client object is non-None, plus `llm_provider`. -/
structure Clients where
  groq_client : Bool
  claude_client : Bool
  openai_client : Bool
  llm_provider : Option String
  deriving DecidableEq, Repr

/-- The module-level `if GROQ_API_KEY: ... elif ANTHROPIC_API_KEY: ...
elif OPENAI_API_KEY: ...` chain of `main.py` that initializes at most one
client. -/
def initClients (k : Keys) : Clients :=
  if k.groq then ⟨true, false, false, some "groq"⟩
  else if k.anthropic then ⟨false, true, false, some "claude"⟩
  else if k.openai then ⟨false, false, true, some "openai"⟩
  else ⟨false, false, false, none⟩

/-- How many provider clients are non-None. -/
def countClients (c : Clients) : Nat :=
  (if c.groq_client then 1 else 0) + (if c.claude_client then 1 else 0) +
    (if c.openai_client then 1 else 0)

/-- An LLM oracle: the outcome of each vendor SDK call made by
`answer_question_with_llm` (`Except.error` models a raised exception, with
its `str(e)`).  The Claude call additionally takes the model name tried. -/
structure LLMOracle where
  groqCall : String → String → Except String String
  claudeCall : String → String → String → Except String String
  openaiCall : String → String → Except String String

/-- The `model_names` list tried in order for Claude. -/
def claude_model_names : List String :=
  ["claude-3-5-sonnet-20241022", "claude-3-5-sonnet-20240620", "claude-3-5-sonnet",
    "claude-3-opus-20240229", "claude-3-sonnet-20240229", "claude-3-haiku-20240307"]

/-- The `for model_name in model_names` loop of the Claude branch: try each
model, keep the last error, return the first success; if none succeeds,
re-raise the last error (or a fixed message when the list was empty). -/
def tryClaudeModels (call : String → Except String String) :
    List String → Option String → Except String String
  | [], none => .error "Failed to find a working Claude model"
  | [], some e => .error e
  | m :: rest, _last =>
    match call m with
    | .ok ans => .ok ans
    | .error e => tryClaudeModels call rest (some e)

/-- The fixed empty-context answer of `answer_question_with_llm`. -/
def noDataMsg : String :=
  "I couldn't find any messages to analyze. The data source may be empty."

/-- The fixed final-else answer of `answer_question_with_llm`. -/
def noKeyMsg : String :=
  "Error: No LLM API key configured. Please set ANTHROPIC_API_KEY or OPENAI_API_KEY environment variable."

/-- The system prompt of `answer_question_with_llm`. -/
def sysPrompt : String :=
  "You are a helpful assistant that answers questions accurately based on the provided context. Be specific and cite user names when relevant."

/-- The user prompt of `answer_question_with_llm`, embedding the built
context and the question. -/
def mkUserPrompt (context question : String) : String :=
  "Here are the messages from members:\n\n" ++ context ++
    "\n\nBased on the above messages, please answer the following question. If the information is not available in the messages, say so. Be specific and cite user names when relevant.\n\nQuestion: " ++
    question ++ "\n\nAnswer:"

/-- The part of `answer_question_with_llm` after the Groq block (reached
when Groq is unconfigured or its call raised): rebuild the context with the
larger budget, guard against an empty context, then Claude, then OpenAI,
else the fixed no-key message. -/
def answerFallback (c : Clients) (o : LLMOracle) (question : String)
    (messages : List Message) : String :=
  let context := format_messages_for_context messages 100000
  if context = "" then noDataMsg
  else
    let user_prompt := mkUserPrompt context question
    if c.claude_client then
      match tryClaudeModels (fun m => o.claudeCall m sysPrompt user_prompt)
          claude_model_names none with
      | .ok ans => stripStr ans
      | .error e => "Error generating answer with Claude: " ++ e
    else if c.openai_client then
      match o.openaiCall sysPrompt user_prompt with
      | .ok ans => stripStr ans
      | .error e => "Error generating answer with OpenAI: " ++ e
    else noKeyMsg

/-- The function `answer_question_with_llm` from `main.py`: try Groq first with the
20000-character context budget (its raised errors are swallowed and fall
through), then the Claude/OpenAI section with the 100000-character budget. -/
def answer_question_with_llm (c : Clients) (o : LLMOracle) (question : String)
    (messages : List Message) : String :=
  if c.groq_client then
    let context := format_messages_for_context messages 20000
    if context = "" then noDataMsg
    else
      match o.groqCall sysPrompt (mkUserPrompt context question) with
      | .ok ans => stripStr ans
      | .error _ => answerFallback c o question messages
  else answerFallback c o question messages

/-! ## Lemmas about the context builder -/

theorem join_cons (a : String) (l : List String) :
    String.join (a :: l) = a ++ String.join l := by
  simp only [String.join_eq]
  apply String.ext
  simp [String.data_append]

theorem join_nil : String.join ([] : List String) = "" := rfl

/-- Budget invariant of `fmcParts`: either no line is taken, or the
running character count stays within `maxChars`. -/
theorem fmcParts_budget (maxChars : Nat) :
    ∀ (msgs : List Message) (cnt : Nat),
      fmcParts maxChars msgs cnt = [] ∨
        cnt + (String.join (fmcParts maxChars msgs cnt)).length ≤ maxChars := by
  intro msgs
  induction msgs with
  | nil => intro cnt; left; rfl
  | cons m rest ih =>
    intro cnt
    by_cases h : cnt + (formatMsg m).length > maxChars
    · left; simp [fmcParts, h]
    · right
      have hstep : fmcParts maxChars (m :: rest) cnt =
          formatMsg m :: fmcParts maxChars rest (cnt + (formatMsg m).length) := by
        simp [fmcParts, h]
      rw [hstep, join_cons]
      rcases ih (cnt + (formatMsg m).length) with h2 | h2
      · rw [h2, join_nil]
        have h0 : ("" : String).length = 0 := rfl
        simp only [String.length_append, h0]
        omega
      · simp only [String.length_append]
        omega

/-- The parts list `fmcParts` takes the formatted lines of an initial prefix of the input. -/
theorem fmcParts_take (maxChars : Nat) :
    ∀ (msgs : List Message) (cnt : Nat),
      ∃ k, fmcParts maxChars msgs cnt = (msgs.take k).map formatMsg := by
  intro msgs
  induction msgs with
  | nil => intro cnt; exact ⟨0, rfl⟩
  | cons m rest ih =>
    intro cnt
    by_cases h : cnt + (formatMsg m).length > maxChars
    · refine ⟨0, ?_⟩; simp [fmcParts, h]
    · rcases ih (cnt + (formatMsg m).length) with ⟨k, hk⟩
      refine ⟨k + 1, ?_⟩
      simp [fmcParts, h, hk]

/-- C5: `format_messages_for_context(messages, N)` returns a string of at
most `N` characters, and that string is the concatenation of the complete
formatted lines of an initial prefix of the input messages, in order —
trailing messages are dropped, never truncated mid-message. -/
theorem claim_C5_context_budget (messages : List Message) (maxChars : Nat) :
    (format_messages_for_context messages maxChars).length ≤ maxChars ∧
      ∃ k, format_messages_for_context messages maxChars =
        String.join ((messages.take k).map formatMsg) := by
  constructor
  · rcases fmcParts_budget maxChars messages 0 with h | h
    · simp [format_messages_for_context, h, join_nil]
    · simpa [format_messages_for_context] using h
  · rcases fmcParts_take maxChars messages 0 with ⟨k, hk⟩
    exact ⟨k, by rw [format_messages_for_context, hk]⟩

/-! ## The fetcher on a well-formed, never-failing source -/

/-- A well-formed page source holding exactly the messages `msgs`: every
request succeeds on its first attempt, the page at cursor `skip` holds the
slice `msgs[skip : skip+100]`, and every page reports `total = msgs.length`. -/
def wfOracle (msgs : List Message) : PageOracle :=
  fun skip _ => .ok ((msgs.drop skip).take 100) msgs.length

theorem fetchGo_wf (msgs : List Message) :
    ∀ (fuel skip : Nat) (acc : List Message) (cf : Nat),
      skip ≤ msgs.length → acc.length = skip → msgs.length - skip < fuel →
      fetchGo (wfOracle msgs) fuel skip acc cf = some (acc ++ msgs.drop skip) := by
  intro fuel
  induction fuel with
  | zero => intro skip acc cf _ _ h3; omega
  | succ fuel ih =>
    intro skip acc cf h1 h2 h3
    have hunf : fetchGo (wfOracle msgs) (fuel + 1) skip acc cf =
        match tryPage3 (wfOracle msgs) skip with
        | .gotEmpty => some acc
        | .gotItems items total =>
          if (acc ++ items).length ≥ total then some (acc ++ items)
          else fetchGo (wfOracle msgs) fuel (skip + 100) (acc ++ items) 0
        | .failed =>
          if cf + 1 ≥ 5 then some acc
          else fetchGo (wfOracle msgs) fuel (skip + 100) acc (cf + 1) := rfl
    have hpage : tryPage3 (wfOracle msgs) skip =
        if ((msgs.drop skip).take 100).isEmpty then PageOutcome.gotEmpty
        else PageOutcome.gotItems ((msgs.drop skip).take 100) msgs.length := rfl
    by_cases hend : msgs.length ≤ skip
    · have hdrop : msgs.drop skip = [] := List.drop_eq_nil_of_le hend
      have hstep : tryPage3 (wfOracle msgs) skip = PageOutcome.gotEmpty := by
        rw [hpage, hdrop]; rfl
      rw [hunf, hstep, hdrop, List.append_nil]
    · have hlt : skip < msgs.length := Nat.lt_of_not_le hend
      have hlen : (msgs.drop skip).length = msgs.length - skip := List.length_drop skip msgs
      have hne : ((msgs.drop skip).take 100).isEmpty = false := by
        have hmin : ((msgs.drop skip).take 100).length = min 100 (msgs.length - skip) := by
          rw [List.length_take, hlen]
        rcases h : (msgs.drop skip).take 100 with _ | ⟨x, xs⟩
        · rw [h] at hmin; simp at hmin; omega
        · rfl
      have hstep : tryPage3 (wfOracle msgs) skip =
          PageOutcome.gotItems ((msgs.drop skip).take 100) msgs.length := by
        rw [hpage, hne]; rfl
      rw [hunf, hstep]
      by_cases hlast : msgs.length - skip ≤ 100
      · have htake : (msgs.drop skip).take 100 = msgs.drop skip :=
          List.take_of_length_le (by omega)
        have hcond : (acc ++ (msgs.drop skip).take 100).length ≥ msgs.length := by
          rw [htake, List.length_append, hlen]; omega
        show (if (acc ++ (msgs.drop skip).take 100).length ≥ msgs.length
            then some (acc ++ (msgs.drop skip).take 100)
            else fetchGo (wfOracle msgs) fuel (skip + 100)
              (acc ++ (msgs.drop skip).take 100) 0) = some (acc ++ msgs.drop skip)
        rw [if_pos hcond, htake]
      · have htlen : ((msgs.drop skip).take 100).length = 100 := by
          rw [List.length_take, hlen]; omega
        have hcond : ¬ ((acc ++ (msgs.drop skip).take 100).length ≥ msgs.length) := by
          rw [List.length_append, htlen]; omega
        have hrec := ih (skip + 100) (acc ++ (msgs.drop skip).take 100) 0
          (by omega) (by rw [List.length_append, htlen]; omega) (by omega)
        have hjoin : (acc ++ (msgs.drop skip).take 100) ++ msgs.drop (skip + 100) =
            acc ++ msgs.drop skip := by
          have hdd : msgs.drop (skip + 100) = (msgs.drop skip).drop 100 := by
            rw [List.drop_drop, Nat.add_comm]
          rw [List.append_assoc, hdd, List.take_append_drop]
        show (if (acc ++ (msgs.drop skip).take 100).length ≥ msgs.length
            then some (acc ++ (msgs.drop skip).take 100)
            else fetchGo (wfOracle msgs) fuel (skip + 100)
              (acc ++ (msgs.drop skip).take 100) 0) = some (acc ++ msgs.drop skip)
        rw [if_neg hcond, hrec, hjoin]

/-- C2: on a well-formed paged source where no page request fails, the
fetcher returns exactly the `total` messages the pages report, concatenated
in page order (here: exactly `msgs`, whose pages are its 100-element
slices and whose reported total is `msgs.length`). -/
theorem claim_C2_fetch_all_wellformed (msgs : List Message) (fuel : Nat)
    (h : msgs.length < fuel) :
    fetch_all_messages (wfOracle msgs) fuel = some msgs := by
  have := fetchGo_wf msgs fuel 0 [] 0 (Nat.zero_le _) rfl (by omega)
  simpa [fetch_all_messages] using this

/-- Two concrete messages used by the closed-form witnesses below. -/
def mA : Message := ⟨"1", "u1", "Alice", "2024-01-01T10:00:00", "hello"⟩

def mB : Message := ⟨"2", "u2", "Bob", "2024-01-02T11:00:00", "paris tomorrow"⟩

/-- Witness for C2 at a concrete input. -/
theorem claim_C2_witness :
    fetch_all_messages (wfOracle [mA, mB]) 3 = some [mA, mB] :=
  claim_C2_fetch_all_wellformed [mA, mB] 3 (by decide)

/-! ## One-step unfolding of the outer pagination loop -/

theorem fetchGo_succ (oracle : PageOracle) (fuel skip : Nat) (acc : List Message)
    (cf : Nat) :
    fetchGo oracle (fuel + 1) skip acc cf =
      match tryPage3 oracle skip with
      | .gotEmpty => some acc
      | .gotItems items total =>
        if (acc ++ items).length ≥ total then some (acc ++ items)
        else fetchGo oracle fuel (skip + 100) (acc ++ items) 0
      | .failed =>
        if cf + 1 ≥ 5 then some acc
        else fetchGo oracle fuel (skip + 100) acc (cf + 1) := rfl

/-! ## Consecutive page failures abort the fetch -/

theorem fetchGo_failures (oracle : PageOracle) :
    ∀ (k fuel skip : Nat) (acc : List Message) (cf : Nat),
      1 ≤ k → k + cf = 5 →
      (∀ i, i < k → tryPage3 oracle (skip + 100 * i) = .failed) →
      fetchGo oracle (fuel + k) skip acc cf = some acc := by
  intro k
  induction k with
  | zero => intro fuel skip acc cf h1; omega
  | succ k ih =>
    intro fuel skip acc cf _ hsum hfail
    have hs0 : tryPage3 oracle skip = .failed := by
      have := hfail 0 (Nat.succ_pos k)
      simpa using this
    have hunf := fetchGo_succ oracle (fuel + k) skip acc cf
    have hfk : fuel + (k + 1) = (fuel + k) + 1 := rfl
    rw [hfk, hunf, hs0]
    show (if cf + 1 ≥ 5 then some acc
        else fetchGo oracle (fuel + k) (skip + 100) acc (cf + 1)) = some acc
    by_cases hk : k = 0
    · have hcf : cf + 1 ≥ 5 := by omega
      rw [if_pos hcf]
    · have hcf : ¬ (cf + 1 ≥ 5) := by omega
      rw [if_neg hcf]
      apply ih fuel (skip + 100) acc (cf + 1) (by omega) (by omega)
      intro i hi
      have hx := hfail (i + 1) (by omega)
      have harith : skip + 100 * (i + 1) = skip + 100 + 100 * i := by ring
      rwa [harith] at hx

/-- C3: the consecutive-failure counter is incremented by one per page whose
retry budget is exhausted and reset to zero by each successful page (so the
`fetchGo` state reaches counter value `cf` only that way); as soon as it
reaches the ceiling of 5 — that is, after `5 - cf` further consecutive
failed pages — `fetch_all_messages` stops paginating and returns (a value,
never an exception) exactly the messages accumulated from the earlier
successful pages: the accumulator, unchanged, whatever the oracle does at
later cursors and whatever fuel remains. -/
theorem claim_C3_stop_at_five_consecutive_failures (oracle : PageOracle)
    (fuel skip : Nat) (acc : List Message) (cf : Nat) (hcf : cf ≤ 4)
    (hfail : ∀ i, i < 5 - cf → tryPage3 oracle (skip + 100 * i) = .failed) :
    fetchGo oracle (fuel + (5 - cf)) skip acc cf = some acc :=
  fetchGo_failures oracle (5 - cf) fuel skip acc cf (by omega) (by omega) hfail

/-- A page source where every request raises a transient HTTP error. -/
def allFailOracle : PageOracle := fun _ _ => .httpErr "boom"

/-- Witness for C3: five failing pages return the accumulator unchanged. -/
theorem claim_C3_witness :
    fetchGo allFailOracle (0 + (5 - 0)) 0 [mA] 0 = some [mA] :=
  claim_C3_stop_at_five_consecutive_failures allFailOracle 0 0 [mA] 0 (by decide)
    (fun _ _ => rfl)

/-! ## The inner retry loop: transient failures and the retry budget -/

theorem tryPage_success_after (oracle : PageOracle) (skip : Nat) :
    ∀ (f fuel att : Nat) (items : List Message) (total : Nat),
      f < fuel →
      (∀ j, j < f → ∃ e, oracle skip (att + j) = .httpErr e) →
      oracle skip (att + f) = .ok items total → items ≠ [] →
      tryPage oracle skip fuel att = .gotItems items total := by
  intro f
  induction f with
  | zero =>
    intro fuel att items total hf _ hok hne
    cases fuel with
    | zero => omega
    | succ fuel =>
      have h0 : oracle skip att = .ok items total := by simpa using hok
      simp [tryPage, h0, hne]
  | succ f ih =>
    intro fuel att items total hf hj hok hne
    cases fuel with
    | zero => omega
    | succ fuel =>
      obtain ⟨e, he⟩ := hj 0 (Nat.succ_pos f)
      have he' : oracle skip att = .httpErr e := by simpa using he
      have step : tryPage oracle skip (fuel + 1) att = tryPage oracle skip fuel (att + 1) := by
        simp [tryPage, he']
      rw [step]
      apply ih fuel (att + 1) items total (by omega) ?_ ?_ hne
      · intro j hjj
        have hx := hj (j + 1) (by omega)
        have harith : att + (j + 1) = att + 1 + j := by omega
        rwa [harith] at hx
      · have harith : att + (f + 1) = att + 1 + f := by omega
        rwa [harith] at hok

theorem tryPage_all_http (oracle : PageOracle) (skip : Nat) :
    ∀ (fuel att : Nat),
      (∀ j, j < fuel → ∃ e, oracle skip (att + j) = .httpErr e) →
      tryPage oracle skip fuel att = .failed := by
  intro fuel
  induction fuel with
  | zero => intro att _; rfl
  | succ fuel ih =>
    intro att hj
    obtain ⟨e, he⟩ := hj 0 (Nat.succ_pos _)
    have he' : oracle skip att = .httpErr e := by simpa using he
    have step : tryPage oracle skip (fuel + 1) att = tryPage oracle skip fuel (att + 1) := by
      simp [tryPage, he']
    rw [step]
    apply ih
    intro j hjj
    have harith : att + 1 + j = att + (j + 1) := by omega
    rw [harith]
    exact hj (j + 1) (by omega)

/-- Anything the outer loop returns extends its accumulator: messages
already collected are never dropped. -/
theorem fetchGo_extends_acc (oracle : PageOracle) :
    ∀ (fuel skip : Nat) (acc : List Message) (cf : Nat) (r : List Message),
      fetchGo oracle fuel skip acc cf = some r → ∃ rest, r = acc ++ rest := by
  intro fuel
  induction fuel with
  | zero =>
    intro skip acc cf r h
    simp [fetchGo] at h
  | succ fuel ih =>
    intro skip acc cf r h
    rw [fetchGo_succ] at h
    cases ht : tryPage3 oracle skip with
    | gotEmpty =>
      simp only [ht] at h
      exact ⟨[], by rw [← Option.some.inj h, List.append_nil]⟩
    | gotItems items total =>
      simp only [ht] at h
      by_cases hc : (acc ++ items).length ≥ total
      · rw [if_pos hc] at h
        exact ⟨items, (Option.some.inj h).symm⟩
      · rw [if_neg hc] at h
        obtain ⟨rest, hrest⟩ := ih _ _ _ _ h
        exact ⟨items ++ rest, by rw [hrest, List.append_assoc]⟩
    | failed =>
      simp only [ht] at h
      by_cases hc : cf + 1 ≥ 5
      · rw [if_pos hc] at h
        exact ⟨[], by rw [← Option.some.inj h, List.append_nil]⟩
      · rw [if_neg hc] at h
        exact ih _ _ _ _ h

/-- A page source where every page up to cursor 400 exhausts its retry
budget, while the page at cursor 500 would answer at once with one
message. -/
def cexOracle : PageOracle := fun skip _ =>
  if skip ≥ 500 then .ok [mB] 1 else .httpErr "e"

/-- Counterexample to C4 as stated: the pages at cursors 0, 100, ..., 400
each exhaust their retry budget, so by the claim every one of them counts
one failure, advances the cursor, and fetching *continues with the next
page* — which would reach cursor 500 and collect `mB`.  The code instead
stops at the fifth consecutive exhausted budget and returns the empty
accumulator, never requesting the page that would have succeeded. -/
theorem claim_C4_counterexample :
    cexOracle 500 0 = PageResp.ok [mB] 1 ∧
      fetch_all_messages cexOracle 10 = some [] :=
  ⟨rfl, by decide⟩

/-- C4 as amended: a transient HTTP error makes the fetcher retry the same
page, up to 3 attempts in total.  If the page succeeds after fewer than 3
transient failures, its messages enter the accumulator and are all present
in whatever the fetch returns (no data loss).  If the budget is exhausted,
exactly one consecutive failure is counted and — provided the
consecutive-failure ceiling of 5 has not been reached — the cursor advances
by `limit` (100) and fetching continues with the next page. -/
theorem claim_C4_amended_retry_budget (oracle : PageOracle) (skip : Nat)
    (acc : List Message) (cf fuel : Nat) :
    (∀ (f : Nat) (items : List Message) (total : Nat),
      f < 3 → (∀ j, j < f → ∃ e, oracle skip j = PageResp.httpErr e) →
      oracle skip f = PageResp.ok items total → items ≠ [] →
      tryPage3 oracle skip = PageOutcome.gotItems items total ∧
        ∀ r, fetchGo oracle (fuel + 1) skip acc cf = some r →
          ∃ rest, r = acc ++ (items ++ rest))
    ∧ ((∀ j, j < 3 → ∃ e, oracle skip j = PageResp.httpErr e) → cf + 1 < 5 →
      tryPage3 oracle skip = PageOutcome.failed ∧
        fetchGo oracle (fuel + 1) skip acc cf =
          fetchGo oracle fuel (skip + 100) acc (cf + 1)) := by
  constructor
  · intro f items total hf hj hok hne
    have hstep : tryPage3 oracle skip = PageOutcome.gotItems items total := by
      apply tryPage_success_after oracle skip f 3 0 items total hf
      · intro j hjj
        simpa using hj j hjj
      · simpa using hok
      · exact hne
    refine ⟨hstep, ?_⟩
    intro r hr
    rw [fetchGo_succ] at hr
    simp only [hstep] at hr
    by_cases hc : (acc ++ items).length ≥ total
    · rw [if_pos hc] at hr
      exact ⟨[], by rw [← Option.some.inj hr]; simp⟩
    · rw [if_neg hc] at hr
      obtain ⟨rest, hrest⟩ := fetchGo_extends_acc oracle _ _ _ _ _ hr
      exact ⟨rest, by rw [hrest, List.append_assoc]⟩
  · intro hj hcf
    have hstep : tryPage3 oracle skip = PageOutcome.failed := by
      apply tryPage_all_http oracle skip 3 0
      intro j hjj
      simpa using hj j hjj
    refine ⟨hstep, ?_⟩
    rw [fetchGo_succ]
    simp only [hstep]
    rw [if_neg (by omega)]

/-- A page source whose page at cursor 0 fails transiently twice and then
succeeds, and whose other pages always fail transiently. -/
def retryOracle : PageOracle := fun skip att =>
  if skip = 0 then (if att < 2 then .httpErr "t" else .ok [mA] 2) else .httpErr "t"

/-- Witness for the amended C4 at a concrete input: the page at cursor 0
succeeds on its third attempt and its message is kept; the page at cursor
100 exhausts its budget, counts one failure and the fetch moves to cursor
200. -/
theorem claim_C4_amended_witness :
    (tryPage3 retryOracle 0 = PageOutcome.gotItems [mA] 2 ∧
      ∀ r, fetchGo retryOracle (0 + 1) 0 [] 0 = some r →
        ∃ rest, r = [] ++ ([mA] ++ rest))
    ∧ (tryPage3 retryOracle 100 = PageOutcome.failed ∧
      fetchGo retryOracle (1 + 1) 100 [mA] 0 =
        fetchGo retryOracle 1 (100 + 100) [mA] (0 + 1)) := by
  constructor
  · exact (claim_C4_amended_retry_budget retryOracle 0 [] 0 0).1 2 [mA] 2 (by decide)
      (fun j hj => ⟨"t", by simp [retryOracle, hj]⟩) rfl (by simp)
  · exact (claim_C4_amended_retry_budget retryOracle 100 [mA] 0 1).2
      (fun j _ => ⟨"t", rfl⟩) (by decide)

/-! ## Termination of the pagination loop -/

theorem tryPage_no_items (oracle : PageOracle) (skip : Nat)
    (h : ∀ att items total, oracle skip att = PageResp.ok items total → items = []) :
    ∀ (fuel att : Nat),
      tryPage oracle skip fuel att = .gotEmpty ∨ tryPage oracle skip fuel att = .failed := by
  intro fuel
  induction fuel with
  | zero => intro att; right; rfl
  | succ fuel ih =>
    intro att
    cases hr : oracle skip att with
    | ok items total =>
      have hit : items = [] := h att items total hr
      left
      simp [tryPage, hr, hit]
    | httpErr e =>
      have step : tryPage oracle skip (fuel + 1) att = tryPage oracle skip fuel (att + 1) := by
        simp [tryPage, hr]
      rw [step]
      exact ih (att + 1)
    | unexpected e =>
      right
      simp [tryPage, hr]

theorem fetchGo_past_bound (oracle : PageOracle) (B : Nat)
    (hB : ∀ skip, B ≤ skip → ∀ att items total,
      oracle skip att = PageResp.ok items total → items = []) :
    ∀ (fuel skip : Nat) (acc : List Message) (cf : Nat),
      B ≤ skip → cf ≤ 4 → 5 - cf ≤ fuel →
      ∃ r, fetchGo oracle fuel skip acc cf = some r := by
  intro fuel
  induction fuel with
  | zero => intro skip acc cf _ h2 h3; omega
  | succ fuel ih =>
    intro skip acc cf h1 h2 h3
    rcases tryPage_no_items oracle skip (hB skip h1) 3 0 with ht | ht
    · have ht3 : tryPage3 oracle skip = PageOutcome.gotEmpty := ht
      exact ⟨acc, by rw [fetchGo_succ]; simp [ht3]⟩
    · have ht3 : tryPage3 oracle skip = PageOutcome.failed := ht
      by_cases hc : cf + 1 ≥ 5
      · exact ⟨acc, by rw [fetchGo_succ]; simp only [ht3]; rw [if_pos hc]⟩
      · obtain ⟨r, hr⟩ := ih (skip + 100) acc (cf + 1) (by omega) (by omega) (by omega)
        exact ⟨r, by rw [fetchGo_succ]; simp only [ht3]; rw [if_neg hc]; exact hr⟩

theorem fetchGo_reaches_bound (oracle : PageOracle) (B : Nat)
    (hB : ∀ skip, B ≤ skip → ∀ att items total,
      oracle skip att = PageResp.ok items total → items = []) :
    ∀ (k fuel skip : Nat) (acc : List Message) (cf : Nat),
      cf ≤ 4 → B ≤ skip + 100 * k → k + 5 ≤ fuel →
      ∃ r, fetchGo oracle fuel skip acc cf = some r := by
  intro k
  induction k with
  | zero =>
    intro fuel skip acc cf h1 h2 h3
    exact fetchGo_past_bound oracle B hB fuel skip acc cf (by omega) h1 (by omega)
  | succ k ih =>
    intro fuel skip acc cf h1 h2 h3
    by_cases hsk : B ≤ skip
    · exact fetchGo_past_bound oracle B hB fuel skip acc cf hsk h1 (by omega)
    · cases fuel with
      | zero => omega
      | succ fuel =>
        cases ht : tryPage3 oracle skip with
        | gotEmpty => exact ⟨acc, by rw [fetchGo_succ]; simp [ht]⟩
        | gotItems items total =>
          by_cases hc : (acc ++ items).length ≥ total
          · exact ⟨acc ++ items, by rw [fetchGo_succ]; simp only [ht]; rw [if_pos hc]⟩
          · obtain ⟨r, hr⟩ := ih fuel (skip + 100) (acc ++ items) 0 (by omega)
              (by omega) (by omega)
            exact ⟨r, by rw [fetchGo_succ]; simp only [ht]; rw [if_neg hc]; exact hr⟩
        | failed =>
          by_cases hc : cf + 1 ≥ 5
          · exact ⟨acc, by rw [fetchGo_succ]; simp only [ht]; rw [if_pos hc]⟩
          · obtain ⟨r, hr⟩ := ih fuel (skip + 100) acc (cf + 1) (by omega)
              (by omega) (by omega)
            exact ⟨r, by rw [fetchGo_succ]; simp only [ht]; rw [if_neg hc]; exact hr⟩

/-- C9: `fetch_all_messages` terminates for every oracle under which, from
some cursor bound `B` on, each request either yields an empty `items` list
or fails: with fuel at least `B + 5` outer iterations the loop reaches a
returned value (never `none`), because each iteration either returns or
advances the cursor by `limit`, and past the bound each non-returning
iteration drives the consecutive-failure counter toward the ceiling of 5.
The oracle's reported totals are unconstrained, so an inconsistent or
decreasing `total` cannot cause an unbounded pagination loop. -/
theorem claim_C9_fetch_terminates (oracle : PageOracle) (B : Nat)
    (hB : ∀ skip, B ≤ skip → ∀ att items total,
      oracle skip att = PageResp.ok items total → items = [])
    (fuel : Nat) (hfuel : B + 5 ≤ fuel) :
    ∃ r, fetch_all_messages oracle fuel = some r :=
  fetchGo_reaches_bound oracle B hB B fuel 0 [] 0 (by omega) (by omega) (by omega)

/-- Witness for C9: an always-failing source terminates with fuel 5. -/
theorem claim_C9_witness : ∃ r, fetch_all_messages allFailOracle 5 = some r :=
  claim_C9_fetch_terminates allFailOracle 0 (fun _ _ _ _ _ h => nomatch h) 5 (by decide)

/-! ## The empty-context guard and the provider chain -/

theorem formatMsg_length_pos (m : Message) : 1 ≤ (formatMsg m).length := by
  simp only [formatMsg, String.length_append]
  have h6 : ("User: " : String).length = 6 := rfl
  omega

/-- If the built context is empty at some budget, it is empty at any
smaller budget (it can only be empty when there is no message at all or
the first formatted line alone exceeds the budget). -/
theorem format_empty_mono (msgs : List Message) (a b : Nat) (hab : a ≤ b)
    (h : format_messages_for_context msgs b = "") :
    format_messages_for_context msgs a = "" := by
  cases msgs with
  | nil => rfl
  | cons m rest =>
    by_cases hbr : 0 + (formatMsg m).length > b
    · have har : 0 + (formatMsg m).length > a := by omega
      have hstep : fmcParts a (m :: rest) 0 = [] := by
        show (if 0 + (formatMsg m).length > a then []
          else formatMsg m :: fmcParts a rest (0 + (formatMsg m).length)) = []
        rw [if_pos har]
      rw [format_messages_for_context, hstep, join_nil]
    · exfalso
      have hstep : fmcParts b (m :: rest) 0 =
          formatMsg m :: fmcParts b rest (0 + (formatMsg m).length) := by
        show (if 0 + (formatMsg m).length > b then []
          else formatMsg m :: fmcParts b rest (0 + (formatMsg m).length)) =
          formatMsg m :: fmcParts b rest (0 + (formatMsg m).length)
        rw [if_neg hbr]
      have hj : format_messages_for_context (m :: rest) b =
          formatMsg m ++ String.join (fmcParts b rest (0 + (formatMsg m).length)) := by
        rw [format_messages_for_context, hstep, join_cons]
      rw [hj] at h
      have hlen := congrArg String.length h
      rw [String.length_append] at hlen
      have h1 := formatMsg_length_pos m
      have h0 : ("" : String).length = 0 := rfl
      rw [h0] at hlen
      omega

/-- C6: for every configuration, every oracle and every question, if the
context built from the message list is empty (no messages exist or none
fit the budget), `answer_question_with_llm` short-circuits and returns the
fixed "no data to analyze" message.  The conclusion holds for *every* LLM
oracle, so no provider call can influence (or be needed for) the answer. -/
theorem claim_C6_empty_context_guard (c : Clients) (o : LLMOracle)
    (question : String) (messages : List Message)
    (h : format_messages_for_context messages 100000 = "") :
    answer_question_with_llm c o question messages = noDataMsg := by
  have h20 : format_messages_for_context messages 20000 = "" :=
    format_empty_mono messages 20000 100000 (by omega) h
  unfold answer_question_with_llm answerFallback
  by_cases hg : c.groq_client <;> simp [hg, h, h20]

/-- An LLM oracle on which every provider call raises. -/
def failLLMOracle : LLMOracle :=
  ⟨fun _ _ => .error "groq boom", fun _ _ _ => .error "claude boom",
    fun _ _ => .error "openai boom"⟩

/-- Witness for C6: an empty message list short-circuits. -/
theorem claim_C6_witness :
    answer_question_with_llm (initClients ⟨true, false, false⟩) failLLMOracle "q" [] =
      noDataMsg :=
  claim_C6_empty_context_guard (initClients ⟨true, false, false⟩) failLLMOracle "q" [] rfl

/-- C10: the module-level if/elif chain leaves at most one provider client
non-None, whatever keys are present; and when Groq is the configured
provider and its single call raises, `answer_question_with_llm` returns the
fixed string beginning "Error: No LLM API key configured." — it neither
attempts another provider nor names Groq in the answer. -/
theorem claim_C10_single_client_groq_failure (k : Keys) (o : LLMOracle)
    (question : String) (messages : List Message) (e : String)
    (hgroq : k.groq = true)
    (hfail : ∀ s u, o.groqCall s u = Except.error e)
    (hctx : format_messages_for_context messages 20000 ≠ "") :
    (∀ k2 : Keys, countClients (initClients k2) ≤ 1) ∧
      answer_question_with_llm (initClients k) o question messages = noKeyMsg ∧
      strStartsWith noKeyMsg "Error: No LLM API key configured." = true ∧
      strContains noKeyMsg "Groq" = false := by
  refine ⟨?_, ?_, by decide, by decide⟩
  · intro k2
    cases k2 with
    | mk g a p => cases g <;> cases a <;> cases p <;> decide
  · have hc : initClients k = ⟨true, false, false, some "groq"⟩ := by
      simp [initClients, hgroq]
    have h100 : format_messages_for_context messages 100000 ≠ "" := fun hh =>
      hctx (format_empty_mono messages 20000 100000 (by omega) hh)
    rw [hc]
    unfold answer_question_with_llm answerFallback
    simp [hctx, h100, hfail]

/-- Witness for C10 at a concrete input: all three keys present, the Groq
call raises, one message exists. -/
theorem claim_C10_witness :
    (∀ k2 : Keys, countClients (initClients k2) ≤ 1) ∧
      answer_question_with_llm (initClients ⟨true, true, true⟩) failLLMOracle "q" [mA] =
        noKeyMsg ∧
      strStartsWith noKeyMsg "Error: No LLM API key configured." = true ∧
      strContains noKeyMsg "Groq" = false :=
  claim_C10_single_client_groq_failure ⟨true, true, true⟩ failLLMOracle "q" [mA]
    "groq boom" rfl (fun _ _ => rfl) (by decide)

/-- C1 (code bug): with all three API keys present the if/elif chain
configures only the Groq client, so when Groq's call raises, the
fall-through the spec describes cannot reach Claude or OpenAI (their
clients are None) and the orchestrator returns the fixed no-key string —
a message that names neither the last failing provider nor its error,
contradicting the code's own "falling back to Claude/OpenAI if available"
log line and its "Please set ANTHROPIC_API_KEY or OPENAI_API_KEY" advice
(both keys are set). -/
theorem claim_C1_no_provider_named_on_total_failure :
    answer_question_with_llm (initClients ⟨true, true, true⟩) failLLMOracle "q" [mA] =
        noKeyMsg ∧
      strContains noKeyMsg "Groq" = false ∧
      strContains noKeyMsg "groq boom" = false :=
  ⟨by decide, by decide, by decide⟩

/-! ## The local keyword-search fallback -/

/-- The single message of the C7 example. -/
def mLayla : Message :=
  ⟨"1", "u1", "Layla", "2024-01-01T10:00:00", "I am flying to London next Friday"⟩

/-- Counterexample to C7 as stated: on the exact example input, the
question's whitespace tokens longer than 3 characters are "when", "layla",
"planning", "trip" and "london?" — the trailing question mark sticks to the
last token — and none of them occurs in the lowercased message body
"i am flying to london next friday".  The match count is therefore 0,
`answer_question_simple` returns the fixed not-found message, and that
message contains neither "Layla" nor the quoted body. -/
theorem claim_C7_counterexample :
    answer_question_simple "When is Layla planning her trip to London?" [mLayla] =
        notFoundMsg ∧
      strContains
        (answer_question_simple "When is Layla planning her trip to London?" [mLayla])
        "Layla" = false :=
  ⟨by decide, by decide⟩

/-- C7 as amended: for the same single message and the question stripped of
its trailing question mark (so the keyword "london" matches the body), the
local fallback returns a string containing both "Layla" and
"flying to London next Friday". -/
theorem claim_C7_amended_local_fallback :
    strContains
        (answer_question_simple "When is Layla planning her trip to London" [mLayla])
        "Layla" = true ∧
      strContains
        (answer_question_simple "When is Layla planning her trip to London" [mLayla])
        "flying to London next Friday" = true :=
  ⟨by decide, by decide⟩

/-- Modelled from the spec: "Rank candidates by descending match count;
ties keep the relative input order (stable sort)" — the top of such a
ranking is the first entry achieving the maximal match count. -/
def firstMax : List (Nat × Message) → Option (Nat × Message)
  | [] => none
  | x :: rest =>
    match firstMax rest with
    | none => some x
    | some y => if y.1 > x.1 then some y else some x

/-- The spec-side local fallback: identical to `answer_question_simple`
except that the stable descending sort followed by taking the head is
replaced by directly selecting the first candidate with the maximal match
count. -/
def answerSimpleSpec (question : String) (messages : List Message) : String :=
  let question_lower := lowerL question.data
  let mentioned_users :=
    (messages.filter fun m => hasSubL question_lower (lowerL m.user_name.data)).map
      fun m => m.user_name
  let relevant_messages :=
    if mentioned_users.isEmpty then messages
    else messages.filter fun m => mentioned_users.contains m.user_name
  let keywords := splitWs question_lower
  let keyword_matches := keywordMatches keywords relevant_messages
  match firstMax keyword_matches with
  | some (_, top) => citeMsg top
  | none => notFoundMsg

theorem insertDesc_head (x : Nat × Message) (l : List (Nat × Message)) :
    (insertDesc x l).head? =
      match l.head? with
      | none => some x
      | some y => if y.1 > x.1 then some y else some x := by
  cases l with
  | nil => rfl
  | cons y rest =>
    by_cases h : y.1 > x.1
    · simp [insertDesc, h]
    · simp [insertDesc, h]

/-- The head of the stable descending sort is the first maximal entry. -/
theorem sortDesc_head (l : List (Nat × Message)) :
    (sortDesc l).head? = firstMax l := by
  induction l with
  | nil => rfl
  | cons x rest ih =>
    have hs : sortDesc (x :: rest) = insertDesc x (sortDesc rest) := rfl
    rw [hs, insertDesc_head, ih]
    rfl

theorem topMatch_eq (l : List (Nat × Message)) :
    (match sortDesc l with
      | (_, top) :: _ => citeMsg top
      | [] => notFoundMsg) =
    (match firstMax l with
      | some (_, top) => citeMsg top
      | none => notFoundMsg) := by
  cases hs : sortDesc l with
  | nil =>
    have h := sortDesc_head l
    rw [hs] at h
    have h2 : firstMax l = none := by rw [← h]; rfl
    rw [h2]
  | cons p rest =>
    obtain ⟨a, b⟩ := p
    have h := sortDesc_head l
    rw [hs] at h
    have h2 : firstMax l = some (a, b) := by rw [← h]; rfl
    rw [h2]

/-- C8: `answer_question_simple` is deterministic — identical
`(question, messages)` inputs give the identical output string — and the
cited top match is uniquely determined by the input: it is the first
candidate, in input order, with the maximal keyword-match count, which is
exactly the head of the stable descending sort (`answerSimpleSpec` follows
the spec's wording directly). -/
theorem claim_C8_deterministic_stable_top (q q2 : String)
    (msgs msgs2 : List Message) (hq : q = q2) (hm : msgs = msgs2) :
    answer_question_simple q msgs = answer_question_simple q2 msgs2 ∧
      answer_question_simple q msgs = answerSimpleSpec q msgs := by
  subst hq
  subst hm
  refine ⟨rfl, ?_⟩
  unfold answer_question_simple answerSimpleSpec
  exact topMatch_eq _

/-- Witness for C8 at a concrete input. -/
theorem claim_C8_witness :
    answer_question_simple "hello Alice" [mA] = answer_question_simple "hello Alice" [mA] ∧
      answer_question_simple "hello Alice" [mA] = answerSimpleSpec "hello Alice" [mA] :=
  claim_C8_deterministic_stable_top "hello Alice" "hello Alice" [mA] [mA] rfl rfl

end QAService
